import Mathlib

/-!
Verification development for the MinIO CSV-export streaming pipeline
(`superset/utils/minio_storage.py`).

The Python code is shallowly embedded: each Python string primitive used by
the code (`str.split`, `str.strip`, `in`, `str.replace`, `str.split(sep, 1)`)
is re-implemented here as a structurally recursive Lean function over
`List Char`, and each method of `MinIOStorageManager` relevant to the
exported behaviour is translated into a pure Lean function.  Byte buffers
written line-by-line (`buffer.write(line + "\n")`) are represented as the
list of lines written; the rendered byte content of such a buffer is each
line followed by a newline, in order.  The MinIO bucket is represented as an
association list of object names to object data, uploads as `putObject`
(put_object overwrites an existing key), deletion as `removeObject`.
-/

/-- `Except` equality is decidable when both components are. -/
instance instDecEqExcept {ε α : Type} [DecidableEq ε] [DecidableEq α] :
    DecidableEq (Except ε α) := fun a b =>
  match a, b with
  | .error e, .error e' =>
    if h : e = e' then .isTrue (by rw [h]) else .isFalse (by simp [h])
  | .error _, .ok _ => .isFalse (by simp)
  | .ok _, .error _ => .isFalse (by simp)
  | .ok v, .ok v' =>
    if h : v = v' then .isTrue (by rw [h]) else .isFalse (by simp [h])

/-- Python `s.split(sep)` for a single-character separator, on the character
list of the string.  `"".split(sep) == [""]`, and a trailing separator
produces a trailing empty field, exactly as in Python. -/
def split_on_char (sep : Char) : List Char → List (List Char)
  | [] => [[]]
  | c :: cs =>
    match split_on_char sep cs with
    | r :: rs => if c = sep then [] :: r :: rs else (c :: r) :: rs
    | [] => [[]]

/-- Python `s.strip()`: remove whitespace from both ends. -/
def strip_chars (l : List Char) : List Char :=
  ((l.dropWhile Char.isWhitespace).reverse.dropWhile Char.isWhitespace).reverse

/-- Python `pat in s`: contiguous-substring test. -/
def contains_sub (pat : List Char) : List Char → Bool
  | [] => pat.isEmpty
  | c :: cs => pat.isPrefixOf (c :: cs) || contains_sub pat cs

/-- Python `s.split(sep, 1)` for a single-character separator: `some (before,
after)` splitting at the first occurrence, `none` if the separator is absent
(in which case Python `s.split(sep, 1)[1]` raises `IndexError`). -/
def split_first (sep : Char) : List Char → Option (List Char × List Char)
  | [] => none
  | c :: cs =>
    if c = sep then some ([], cs)
    else (split_first sep cs).map (fun p => (c :: p.1, p.2))

/-- Fuel-indexed single-pass replacement; the fuel is only a structural
termination device, `replace_list` below always supplies enough. -/
def replace_fuel (pat rep : List Char) : Nat → List Char → List Char
  | 0, s => s
  | _ + 1, [] => []
  | fuel + 1, c :: cs =>
    if pat ≠ [] ∧ pat.isPrefixOf (c :: cs) then
      rep ++ replace_fuel pat rep fuel ((c :: cs).drop pat.length)
    else
      c :: replace_fuel pat rep fuel cs

/-- Python `s.replace(pat, rep)`: left-to-right single-pass replacement of
non-overlapping occurrences (matches in the original string only). -/
def replace_list (pat rep : List Char) (s : List Char) : List Char :=
  replace_fuel pat rep s.length s

/-- Python `s.strip()` at the `String` level. -/
def py_strip (s : String) : String := ⟨strip_chars s.data⟩

/-- Python `s.split("\n")` at the `String` level. -/
def py_split_lines (s : String) : List String :=
  (split_on_char '\n' s.data).map (fun l => ⟨l⟩)

/-- Python `s.replace(pat, rep)` at the `String` level. -/
def py_replace (s pat rep : String) : String :=
  ⟨replace_list pat.data rep.data s.data⟩

/-- Python truthiness of `line.strip()`: `True` when the stripped line is
empty, i.e. the line is blank. -/
def is_blank (l : String) : Bool := (strip_chars l.data).isEmpty

/-- Data stored at an object name in the bucket: a CSV object is the list of
lines written to its buffer (each rendered as `line ++ "\n"`), a ZIP archive
is its ordered list of entries `(entry filename, entry CSV lines)`. -/
inductive ObjectData where
  | csv (lines : List String)
  | zip (entries : List (String × List String))
deriving DecidableEq, Repr

/-- The bucket: an association list from object names to object data. -/
abbrev Store := List (String × ObjectData)

/-- `client.put_object`: store data under a name, overwriting any existing
object with that name. -/
def putObject (store : Store) (name : String) (d : ObjectData) : Store :=
  store.filter (fun p => p.1 ≠ name) ++ [(name, d)]

/-- `client.get_object`: look up an object by name. -/
def getObject (store : Store) (name : String) : Option ObjectData :=
  (store.find? (fun p => p.1 == name)).map Prod.snd

/-- `client.remove_object`: delete the object with the given name. -/
def removeObject (store : Store) (name : String) : Store :=
  store.filter (fun p => p.1 ≠ name)

/-- The literal upstream-failure marker recognised by
`stream_csv_to_minio`. -/
def streamErrorMarker : String := "__STREAM_ERROR__"

/-- The errors `stream_csv_to_minio` can raise: `ValueError(msg)`, the
`IndexError` from `chunk.split(":", 1)[1]` when a marker chunk has no colon,
and a store I/O failure (`S3Error`) from the consolidation round-trip. -/
inductive StreamError where
  | valueError (msg : String)
  | indexError
  | storeError
deriving DecidableEq, Repr

/-- The mutable locals of `stream_csv_to_minio` during the chunk loop.
`uploads` is the ordered log of segment uploads performed so far, as pairs
`(object name, buffer lines)`; `uploads.map Prod.fst` is the Python
`uploaded_files` list. -/
structure StreamState where
  uploads : List (String × List String)
  buffer : List String
  currentFileRows : Nat
  totalRows : Nat
  fileIndex : Nat
  header : Option String
deriving DecidableEq, Repr

/-- The nested `finalize_current_file`: if the buffer is non-empty, name it
(first segment keeps the caller filename, later ones get
`filename.replace(".csv", "") + "_<file_index>.csv"`), upload it, and reset
the buffer, row counter and index. -/
def finalize_current_file (filename timestamp : String) (s : StreamState) : StreamState :=
  if s.buffer.isEmpty then s
  else
    let csvFilename :=
      if s.uploads.length > 0 then
        py_replace filename ".csv" "" ++ "_" ++ toString s.fileIndex ++ ".csv"
      else filename
    let objectName := "exports/" ++ timestamp ++ "_" ++ csvFilename
    { s with
      uploads := s.uploads ++ [(objectName, s.buffer)]
      buffer := []
      currentFileRows := 0
      fileIndex := s.fileIndex + 1 }

/-- The body of the inner `for line in lines` loop: skip blank lines, record
the first non-blank line as the header, otherwise finalize the current file
when it already holds `maxRows` data rows (re-writing the header into the
fresh buffer) and append the data line, counting it. -/
def process_line (maxRows : Nat) (filename timestamp : String)
    (s : StreamState) (line : String) : StreamState :=
  if is_blank line then s
  else
    match s.header with
    | none => { s with header := some line, buffer := s.buffer ++ [line] }
    | some h =>
      let s1 :=
        if s.currentFileRows ≥ maxRows then
          let s' := finalize_current_file filename timestamp s
          { s' with buffer := s'.buffer ++ [h] }
        else s
      { s1 with
        buffer := s1.buffer ++ [line]
        currentFileRows := s1.currentFileRows + 1
        totalRows := s1.totalRows + 1 }

/-- `chunk.split(":", 1)[1].strip()` packaged as the error raised for a
sentinel chunk: `ValueError` of the text after the chunk's first colon,
stripped, or `IndexError` when the chunk has no colon. -/
def sentinel_error (chunk : String) : StreamError :=
  match split_first ':' chunk.data with
  | some (_, aft) => .valueError ⟨strip_chars aft⟩
  | none => .indexError

/-- The outer `for chunk in csv_generator` loop.  A chunk containing the
error marker raises before any of its lines is processed; the raised error
carries the state at that moment (segments already uploaded remain in the
log).  Otherwise the chunk is split on newlines and its lines processed. -/
def process_chunks (maxRows : Nat) (filename timestamp : String) :
    StreamState → List String → Except (StreamError × StreamState) StreamState
  | s, [] => .ok s
  | s, c :: cs =>
    if contains_sub streamErrorMarker.data c.data then
      .error (sentinel_error c, s)
    else
      process_chunks maxRows filename timestamp
        ((py_split_lines c).foldl (process_line maxRows filename timestamp) s) cs

/-- The initial state of `stream_csv_to_minio`'s locals. -/
def initStreamState : StreamState :=
  { uploads := [], buffer := [], currentFileRows := 0, totalRows := 0,
    fileIndex := 1, header := none }

/-- The segment-producing stage of `stream_csv_to_minio`: the chunk loop
followed by the trailing `finalize_current_file()` call.  Its `.ok` state
holds the complete upload log of the job. -/
def stream_segments (chunks : List String) (filename : String)
    (maxRows : Nat) (timestamp : String) :
    Except (StreamError × StreamState) StreamState :=
  match process_chunks maxRows filename timestamp initStreamState chunks with
  | .error es => .error es
  | .ok s => .ok (finalize_current_file filename timestamp s)

/-- `object_name.split("/")[-1]`: the bare filename of an object, with its
directory components stripped. -/
def bare_name (nm : String) : String :=
  ⟨(split_on_char '/' nm.data).getLastD []⟩

/-- The per-object loop of `_create_zip_from_uploaded_files`: download each
named object, append a ZIP entry keyed by `object_name.split("/")[-1]`, then
delete the object.  `none` models the `S3Error` raised by `get_object` when
the object is missing (or is not a CSV object). -/
def create_zip_loop (store : Store) :
    List String → Option (Store × List (String × List String))
  | [] => some (store, [])
  | n :: rest =>
    match getObject store n with
    | some (.csv lines) =>
      match create_zip_loop (removeObject store n) rest with
      | some (st, es) => some (st, (bare_name n, lines) :: es)
      | none => none
    | _ => none

/-- `_create_zip_from_uploaded_files`: build the archive from the uploaded
segments (deleting each after reading it back) and upload it under
`zip_object_name`. -/
def create_zip_from_uploaded_files (store : Store) (object_names : List String)
    (zip_object_name : String) : Option Store :=
  match create_zip_loop store object_names with
  | some (st, entries) => some (putObject st zip_object_name (.zip entries))
  | none => none

/-- The result of a successful `stream_csv_to_minio` call: the returned
triple `(object_name, total_rows, file_count)`, together with the segment
upload log and the final bucket contents. -/
structure StreamOutcome where
  objectName : String
  totalRows : Nat
  fileCount : Nat
  uploads : List (String × List String)
  store : Store
deriving DecidableEq, Repr

/-- The tail of `stream_csv_to_minio` after the chunk loop and the final
`finalize_current_file()`: fail when nothing was uploaded, consolidate into
a ZIP when more than one segment was uploaded, otherwise return the single
CSV object.  `store0` is the bucket content when the job starts; segment
uploads are `put_object` calls, so the bucket at this point is the fold of
the upload log over `store0`. -/
def stream_finish (store0 : Store) (filename timestamp : String)
    (s : StreamState) : Except (StreamError × StreamState) StreamOutcome :=
  let storeAfter := s.uploads.foldl (fun st p => putObject st p.1 (.csv p.2)) store0
  if s.uploads.length = 0 then
    .error (.valueError "No data to export", s)
  else if s.uploads.length > 1 then
    let zipName := "exports/" ++ timestamp ++ "_" ++ py_replace filename ".csv" ".zip"
    match create_zip_from_uploaded_files storeAfter (s.uploads.map Prod.fst) zipName with
    | some store1 =>
      .ok ⟨zipName, s.totalRows, s.uploads.length, s.uploads, store1⟩
    | none => .error (.storeError, s)
  else
    .ok ⟨(s.uploads.map Prod.fst).headD "", s.totalRows, s.uploads.length,
         s.uploads, storeAfter⟩

/-- `MinIOStorageManager.stream_csv_to_minio` with the row limit already
resolved.  `timestamp` is the single
`datetime.now().strftime("%Y%m%d_%H%M%S")` token taken at job start. -/
def stream_csv_to_minio (store0 : Store) (chunks : List String)
    (filename : String) (maxRows : Nat) (timestamp : String) :
    Except (StreamError × StreamState) StreamOutcome :=
  match stream_segments chunks filename maxRows timestamp with
  | .error es => .error es
  | .ok s => stream_finish store0 filename timestamp s

/-- Fuel-indexed left-aligned grouping of a list into blocks; the fuel is a
structural termination device, `chunksOf` below always supplies enough. -/
def chunksOf_fuel (m : Nat) : Nat → List α → List (List α)
  | _, [] => []
  | 0, _ :: _ => []
  | fuel + 1, x :: xs => (x :: xs.take (m - 1)) :: chunksOf_fuel m fuel (xs.drop (m - 1))

/-- Split a list into consecutive groups of `m` elements (the last group may
be shorter).  For `0 < m` this is the per-segment grouping of the data rows
performed by the splitting loop of `stream_csv_to_minio`. -/
def chunksOf (m : Nat) (l : List α) : List (List α) :=
  chunksOf_fuel m l.length l

/-- `ceil(n / m)` on naturals. -/
def ceil_div (n m : Nat) : Nat := (n + m - 1) / m

/-- The object name given to the `j`-th segment (1-based) of a job: the
first segment keeps the caller-supplied filename, later segments get
`filename.replace(".csv", "") + "_<j>.csv"`, all under
`exports/<timestamp>_`. -/
def segment_object_name (filename timestamp : String) (j : Nat) : String :=
  if j = 1 then "exports/" ++ timestamp ++ "_" ++ filename
  else "exports/" ++ timestamp ++ "_" ++ py_replace filename ".csv" "" ++ "_" ++
    toString j ++ ".csv"

/-- The object name of the consolidated archive of a job:
`exports/<timestamp>_<filename.replace(".csv", ".zip")>`. -/
def zip_object_name (filename timestamp : String) : String :=
  "exports/" ++ timestamp ++ "_" ++ py_replace filename ".csv" ".zip"

/-- The segment uploads `(name, lines)` produced for the listed row groups,
with the first listed group receiving segment number `j`: each group is
uploaded with the shared header prepended as its first line. -/
def expected_uploads_from (filename timestamp h : String) :
    Nat → List (List String) → List (String × List String)
  | _, [] => []
  | j, g :: gs =>
    (segment_object_name filename timestamp j, h :: g) ::
      expected_uploads_from filename timestamp h (j + 1) gs

/-- The full expected upload log of a job with header `h`, data rows `ds`
and per-file limit `m`. -/
def expected_uploads (filename timestamp h : String) (m : Nat) (ds : List String) :
    List (String × List String) :=
  expected_uploads_from filename timestamp h 1 (chunksOf m ds)

/-- All newline-separated lines of the chunk sequence, in producer order. -/
def all_lines (chunks : List String) : List String :=
  (chunks.map py_split_lines).flatten

/-- The non-blank lines of the chunk sequence, in producer order.  The first
one is the header, the rest are the data rows. -/
def nonblank_lines (chunks : List String) : List String :=
  (all_lines chunks).filter (fun l => !(is_blank l))

/-- The state reached by running the data-row loop on rows `ds` from a
fresh-segment state (buffer holding just the header, zero rows counted,
upload log `U`, running total `T`): every full group of `m` rows except the
last group has been uploaded, and the last group sits in the buffer behind
the header. -/
def seg_start_result (m : Nat) (f t h : String) (U : List (String × List String))
    (T : Nat) (ds : List String) : StreamState :=
  ⟨U ++ expected_uploads_from f t h (U.length + 1) (chunksOf m ds).dropLast,
   h :: (chunksOf m ds).getLastD [],
   ((chunksOf m ds).getLastD []).length,
   T + ds.length,
   U.length + ((chunksOf m ds).dropLast).length + 1,
   some h⟩

/-- The archive entries of a multi-segment job: one entry per segment, keyed
by the segment's bare filename, holding the segment's lines. -/
def expected_entries (f t h : String) (m : Nat) (ds : List String) :
    List (String × List String) :=
  (expected_uploads f t h m ds).map (fun p => (bare_name p.1, p.2))

/-- An object as reported by `client.list_objects`: its name and its
store-reported last-modified timestamp (`obj.last_modified` may be `None`).
Timestamps are modelled as integers. -/
structure StoreObject where
  object_name : String
  last_modified : Option Int
deriving DecidableEq, Repr

/-- Whether an object is returned by
`client.list_objects(bucket, prefix="exports/", recursive=True)`: its name
starts with `"exports/"`. -/
def is_export_object (o : StoreObject) : Bool :=
  "exports/".data.isPrefixOf o.object_name.data

/-- The deletion test of `cleanup_old_files`:
`obj.last_modified and obj.last_modified < cutoff_time` — an absent
timestamp is falsy, otherwise the timestamp must be strictly below the
cutoff. -/
def is_expired (cutoff : Int) (o : StoreObject) : Bool :=
  match o.last_modified with
  | some tm => decide (tm < cutoff)
  | none => false

/-- `client.remove_object` on the listing model: drop the named object. -/
def remove_store (bucket : List StoreObject) (nm : String) : List StoreObject :=
  bucket.filter (fun o => o.object_name ≠ nm)

/-- The `for obj in objects` loop of `cleanup_old_files`, over the listed
objects, threading the bucket and the deleted counter. -/
def cleanup_loop (cutoff : Int) :
    List StoreObject → List StoreObject → Nat → List StoreObject × Nat
  | [], bucket, n => (bucket, n)
  | o :: os, bucket, n =>
    if is_expired cutoff o then
      cleanup_loop cutoff os (remove_store bucket o.object_name) (n + 1)
    else
      cleanup_loop cutoff os bucket n

/-- `MinIOStorageManager.cleanup_old_files`: list the objects under
`exports/`, remove every one whose last-modified time is strictly older than
`now - retention`, return the remaining bucket and the deleted count. -/
def cleanup_old_files (bucket : List StoreObject) (now retention : Int) :
    List StoreObject × Nat :=
  cleanup_loop (now - retention) (bucket.filter is_export_object) bucket 0

/-- The `for obj in objects` loop of `cleanup_old_files` in an environment
where `client.remove_object` can raise: `fails nm = true` means removing
object `nm` raises `S3Error`.  The first component records the names on
which a removal was attempted (a `remove_object` call issued), in order; on
the first failing removal the loop's exception is logged and re-raised
(`Except.error`), abandoning the remaining listed objects. -/
def cleanup_loop_f (cutoff : Int) (fails : String → Bool) :
    List StoreObject → List String → Nat → List String × Except Unit Nat
  | [], att, n => (att, .ok n)
  | o :: os, att, n =>
    if is_expired cutoff o then
      if fails o.object_name then (att ++ [o.object_name], .error ())
      else cleanup_loop_f cutoff fails os (att ++ [o.object_name]) (n + 1)
    else
      cleanup_loop_f cutoff fails os att n

/-- `cleanup_old_files` in an environment where some removals fail. -/
def cleanup_old_files_f (bucket : List StoreObject) (now retention : Int)
    (fails : String → Bool) : List String × Except Unit Nat :=
  cleanup_loop_f (now - retention) fails (bucket.filter is_export_object) [] 0

/-- The `MINIO_EXPORT_CONFIG` dictionary: every key is optional, lookups use
the defaults from the code (`.get(key, default)`). -/
structure MinioExportConfig where
  enabled : Option Bool := none
  access_key : Option String := none
  secret_key : Option String := none
  max_rows_per_file : Option Nat := none
deriving DecidableEq, Repr

/-- The state of a `MinIOStorageManager`: whether `_client` has been built,
and the `_config` dictionary (`{}` on a fresh manager). -/
structure ManagerState where
  client_initialized : Bool
  config : MinioExportConfig
deriving DecidableEq, Repr

/-- `MinIOStorageManager.__init__`: `_client = None`, `_config = {}` — the
application config is NOT read here. -/
def manager_init : ManagerState := ⟨false, {}⟩

/-- `MinIOStorageManager.get_max_rows_per_file`:
`self._config.get("max_rows_per_file", 1000000)`. -/
def get_max_rows_per_file (mgr : ManagerState) : Nat :=
  mgr.config.max_rows_per_file.getD 1000000

/-- `MinIOStorageManager._initialize_client`, configuration part: a cached
client is returned as is; otherwise `_config` is loaded from the app config
before the enabled/credentials checks, so a failed initialization still
leaves `_config` populated (carried in the error). -/
def initialize_client (app_config : MinioExportConfig) (mgr : ManagerState) :
    Except (String × ManagerState) ManagerState :=
  if mgr.client_initialized then .ok mgr
  else
    let mgr1 : ManagerState := ⟨mgr.client_initialized, app_config⟩
    if !(app_config.enabled.getD false) then
      .error ("MinIO export is not enabled in configuration", mgr1)
    else if app_config.access_key.getD "" = "" ∨
        app_config.secret_key.getD "" = "" then
      .error ("MinIO access_key and secret_key must be configured in MINIO_EXPORT_CONFIG",
        mgr1)
    else
      .ok ⟨true, app_config⟩

/-- `stream_csv_to_minio` as called on a manager with
`max_rows_per_file = None` or an explicit value: `None` is resolved through
`self.get_max_rows_per_file()`. -/
def stream_csv_to_minio_with_manager (mgr : ManagerState) (store0 : Store)
    (chunks : List String) (filename : String)
    (max_rows_per_file : Option Nat) (timestamp : String) :
    Except (StreamError × StreamState) StreamOutcome :=
  stream_csv_to_minio store0 chunks filename
    (max_rows_per_file.getD (get_max_rows_per_file mgr)) timestamp

theorem chunksOf_fuel_nil (m fuel : Nat) : chunksOf_fuel m fuel ([] : List α) = [] := by
  cases fuel <;> rfl

theorem chunksOf_nil (m : Nat) : chunksOf m ([] : List α) = [] := by
  simp [chunksOf, chunksOf_fuel_nil]

theorem chunksOf_fuel_congr (m : Nat) :
    ∀ (fuel fuel' : Nat) (l : List α), l.length ≤ fuel → l.length ≤ fuel' →
      chunksOf_fuel m fuel l = chunksOf_fuel m fuel' l := by
  intro fuel
  induction fuel with
  | zero =>
    intro fuel' l hl _
    cases l with
    | nil => cases fuel' <;> rfl
    | cons x xs => simp at hl
  | succ f ih =>
    intro fuel' l hl hl'
    cases l with
    | nil => cases fuel' <;> rfl
    | cons x xs =>
      cases fuel' with
      | zero => simp at hl'
      | succ f' =>
        simp only [chunksOf_fuel]
        congr 1
        apply ih
        · calc (xs.drop (m - 1)).length ≤ xs.length := by
                rw [List.length_drop]; omega
            _ ≤ f := by simpa using hl
        · calc (xs.drop (m - 1)).length ≤ xs.length := by
                rw [List.length_drop]; omega
            _ ≤ f' := by simpa using hl'

theorem chunksOf_cons (m : Nat) (x : α) (xs : List α) :
    chunksOf m (x :: xs) = (x :: xs.take (m - 1)) :: chunksOf m (xs.drop (m - 1)) := by
  show chunksOf_fuel m (xs.length + 1) (x :: xs) = _
  simp only [chunksOf_fuel]
  congr 1
  apply chunksOf_fuel_congr
  · rw [List.length_drop]; omega
  · rfl

theorem chunksOf_eq_single {m : Nat} {l : List α} (hne : l ≠ []) (hle : l.length ≤ m) :
    chunksOf m l = [l] := by
  cases l with
  | nil => exact absurd rfl hne
  | cons x xs =>
    rw [chunksOf_cons]
    have hxs : xs.length ≤ m - 1 := by simp at hle; omega
    rw [List.take_of_length_le hxs, List.drop_eq_nil_of_le hxs]
    rfl

theorem chunksOf_eq_cons_of_lt {m : Nat} {l : List α} (hm : 0 < m) (hlt : m < l.length) :
    chunksOf m l = l.take m :: chunksOf m (l.drop m) := by
  cases l with
  | nil => simp at hlt
  | cons x xs =>
    obtain ⟨k, rfl⟩ : ∃ k, m = k + 1 := ⟨m - 1, by omega⟩
    rw [chunksOf_cons]
    simp

theorem chunksOf_ne_nil {m : Nat} {l : List α} (hne : l ≠ []) : chunksOf m l ≠ [] := by
  cases l with
  | nil => exact absurd rfl hne
  | cons x xs => rw [chunksOf_cons]; simp

theorem chunksOf_flatten {m : Nat} (hm : 0 < m) :
    ∀ (n : Nat) (l : List α), l.length ≤ n → (chunksOf m l).flatten = l := by
  intro n
  induction n with
  | zero =>
    intro l hl
    have : l = [] := by cases l <;> simp_all
    subst this; rfl
  | succ k ih =>
    intro l hl
    rcases eq_or_ne l [] with rfl | hne
    · rfl
    rcases le_or_lt l.length m with hle | hlt
    · rw [chunksOf_eq_single hne hle]; simp
    · rw [chunksOf_eq_cons_of_lt hm hlt]
      have hdl : (l.drop m).length ≤ k := by rw [List.length_drop]; omega
      simp [ih _ hdl, List.take_append_drop]

theorem chunksOf_mem_length {m : Nat} (hm : 0 < m) :
    ∀ (n : Nat) (l : List α), l.length ≤ n →
      ∀ g ∈ chunksOf m l, g ≠ [] ∧ g.length ≤ m := by
  intro n
  induction n with
  | zero =>
    intro l hl g hg
    have hl0 : l = [] := by cases l <;> simp_all
    subst hl0
    rw [chunksOf_nil] at hg
    simp at hg
  | succ k ih =>
    intro l hl g hg
    rcases eq_or_ne l [] with rfl | hne
    · rw [chunksOf_nil] at hg; simp at hg
    rcases le_or_lt l.length m with hle | hlt
    · rw [chunksOf_eq_single hne hle] at hg
      simp at hg
      subst hg
      exact ⟨hne, hle⟩
    · rw [chunksOf_eq_cons_of_lt hm hlt] at hg
      rcases List.mem_cons.mp hg with rfl | hg
      · have hlen : (List.take m l).length = m := by
          rw [List.length_take]; omega
        refine ⟨?_, le_of_eq hlen⟩
        intro hnil
        rw [hnil] at hlen
        simp at hlen
        omega
      · exact ih _ (by rw [List.length_drop]; omega) g hg

theorem ceil_div_eq_one {n m : Nat} (h1 : 1 ≤ n) (h2 : n ≤ m) : ceil_div n m = 1 := by
  unfold ceil_div
  exact Nat.div_eq_of_lt_le (by omega) (by omega)

theorem chunksOf_length_eq {m : Nat} (hm : 0 < m) :
    ∀ (n : Nat) (l : List α), l.length ≤ n → l ≠ [] →
      (chunksOf m l).length = ceil_div l.length m := by
  intro n
  induction n with
  | zero =>
    intro l hl hne
    cases l <;> simp_all
  | succ k ih =>
    intro l hl hne
    rcases le_or_lt l.length m with hle | hlt
    · rw [chunksOf_eq_single hne hle]
      have h1 : 1 ≤ l.length := by cases l <;> simp_all
      simp [ceil_div_eq_one h1 hle]
    · rw [chunksOf_eq_cons_of_lt hm hlt]
      have hdne : l.drop m ≠ [] := by
        intro hd
        have := List.length_drop m l
        rw [hd] at this
        simp at this
        omega
      have hdl : (l.drop m).length ≤ k := by rw [List.length_drop]; omega
      rw [List.length_cons, ih _ hdl hdne, List.length_drop]
      unfold ceil_div
      have hsplit : l.length + m - 1 = (l.length - m + m - 1) + m := by omega
      rw [hsplit, Nat.add_div_right _ hm]

theorem expected_uploads_from_length (f t h : String) :
    ∀ (gs : List (List String)) (j : Nat),
      (expected_uploads_from f t h j gs).length = gs.length := by
  intro gs
  induction gs with
  | nil => intro j; rfl
  | cons g gs ih => intro j; simp [expected_uploads_from, ih]

theorem expected_uploads_from_append_single (f t h : String) :
    ∀ (gs : List (List String)) (g : List String) (j : Nat),
      expected_uploads_from f t h j (gs ++ [g]) =
        expected_uploads_from f t h j gs ++
          [(segment_object_name f t (j + gs.length), h :: g)] := by
  intro gs
  induction gs with
  | nil => intro g j; simp [expected_uploads_from]
  | cons g0 gs ih =>
    intro g j
    simp only [List.cons_append, expected_uploads_from, List.append_eq]
    rw [ih g (j + 1)]
    simp only [List.length_cons]
    have hidx : j + 1 + gs.length = j + (gs.length + 1) := by omega
    rw [hidx]

theorem expected_uploads_from_mem (f t h : String) :
    ∀ (gs : List (List String)) (j : Nat) (u : String × List String),
      u ∈ expected_uploads_from f t h j gs → ∃ g ∈ gs, u.2 = h :: g := by
  intro gs
  induction gs with
  | nil => intro j u hu; simp [expected_uploads_from] at hu
  | cons g gs ih =>
    intro j u hu
    simp only [expected_uploads_from, List.mem_cons] at hu
    rcases hu with rfl | hu
    · exact ⟨g, List.mem_cons_self g gs, rfl⟩
    · obtain ⟨g', hg', hg'2⟩ := ih (j + 1) u hu
      exact ⟨g', List.mem_cons_of_mem _ hg', hg'2⟩

theorem expected_uploads_from_map_tail (f t h : String) :
    ∀ (gs : List (List String)) (j : Nat),
      (expected_uploads_from f t h j gs).map (fun u => u.2.tail) = gs := by
  intro gs
  induction gs with
  | nil => intro j; rfl
  | cons g gs ih => intro j; simp [expected_uploads_from, ih]

theorem expected_uploads_from_map_fst (f t h : String) :
    ∀ (gs : List (List String)) (j : Nat),
      (expected_uploads_from f t h j gs).map Prod.fst =
        (List.range gs.length).map (fun i => segment_object_name f t (j + i)) := by
  intro gs
  induction gs with
  | nil => intro j; rfl
  | cons g gs ih =>
    intro j
    simp only [expected_uploads_from, List.map_cons, List.length_cons,
      List.range_succ_eq_map, List.map_map, Nat.add_zero]
    rw [ih (j + 1)]
    congr 1
    apply List.map_congr_left
    intro a _
    simp only [Function.comp_apply, Nat.succ_eq_add_one]
    congr 1
    omega

theorem getLastD_ne_nil {α : Type} {l : List α} (h : l ≠ []) (a b : α) :
    l.getLastD a = l.getLastD b := by
  rw [List.getLastD_eq_getLast?, List.getLastD_eq_getLast?, List.getLast?_eq_getLast l h]
  rfl

theorem process_line_blank (m : Nat) (f t : String) (s : StreamState) (l : String)
    (hl : is_blank l = true) : process_line m f t s l = s := by
  simp [process_line, hl]

theorem process_line_header (m : Nat) (f t : String)
    (U : List (String × List String)) (B : List String) (cur T i : Nat) (l : String)
    (hl : is_blank l = false) :
    process_line m f t ⟨U, B, cur, T, i, none⟩ l = ⟨U, B ++ [l], cur, T, i, some l⟩ := by
  simp [process_line, hl]

theorem finalize_eq_upload (f t : String) (U : List (String × List String))
    (B : List String) (cur T : Nat) (hd : Option String) (hB : B ≠ []) :
    finalize_current_file f t ⟨U, B, cur, T, U.length + 1, hd⟩ =
      ⟨U ++ [(segment_object_name f t (U.length + 1), B)], [], 0, T, U.length + 2, hd⟩ := by
  have hBe : B.isEmpty = false := by cases B with
    | nil => exact absurd rfl hB
    | cons b bs => rfl
  cases U with
  | nil => simp [finalize_current_file, hBe, segment_object_name]
  | cons u us =>
    simp [finalize_current_file, hBe, segment_object_name, String.append_assoc]

theorem process_line_data_lt (m : Nat) (f t : String)
    (U : List (String × List String)) (B : List String) (cur T i : Nat)
    (h d : String) (hd : is_blank d = false) (hcur : cur < m) :
    process_line m f t ⟨U, B, cur, T, i, some h⟩ d =
      ⟨U, B ++ [d], cur + 1, T + 1, i, some h⟩ := by
  simp [process_line, hd, Nat.not_le.mpr hcur]

theorem process_line_data_ge (m : Nat) (f t : String)
    (U : List (String × List String)) (B : List String) (cur T : Nat)
    (h d : String) (hd : is_blank d = false) (hcur : m ≤ cur) (hB : B ≠ []) :
    process_line m f t ⟨U, B, cur, T, U.length + 1, some h⟩ d =
      ⟨U ++ [(segment_object_name f t (U.length + 1), B)], [h, d], 1, T + 1,
        U.length + 2, some h⟩ := by
  simp only [process_line, hd, Bool.false_eq_true, if_false]
  rw [if_pos hcur, finalize_eq_upload f t U B cur T (some h) hB]
  rfl

theorem fold_fill (m : Nat) (f t h : String) :
    ∀ (xs rows : List String) (U : List (String × List String)) (cur T i : Nat),
      cur = rows.length → rows.length + xs.length ≤ m →
      (∀ x ∈ xs, is_blank x = false) →
      xs.foldl (process_line m f t) ⟨U, h :: rows, cur, T, i, some h⟩ =
        ⟨U, h :: (rows ++ xs), cur + xs.length, T + xs.length, i, some h⟩ := by
  intro xs
  induction xs with
  | nil =>
    intro rows U cur T i hcur hle hnb
    simp
  | cons x xs ih =>
    intro rows U cur T i hcur hle hnb
    have hx : is_blank x = false := hnb x (List.mem_cons_self x xs)
    have hcur_lt : cur < m := by
      rw [hcur]
      simp only [List.length_cons] at hle
      omega
    rw [List.foldl_cons, process_line_data_lt m f t U (h :: rows) cur T i h x hx hcur_lt]
    have hrw : (h :: rows) ++ [x] = h :: (rows ++ [x]) := by simp
    rw [hrw]
    rw [ih (rows ++ [x]) U (cur + 1) (T + 1) i
        (by rw [hcur]; simp)
        (by simp only [List.length_append, List.length_singleton]
            simp only [List.length_cons] at hle
            omega)
        (fun y hy => hnb y (List.mem_cons_of_mem x hy))]
    simp only [List.append_assoc, List.singleton_append, List.length_cons]
    congr 1 <;> omega

theorem seg_start_result_peel (m : Nat) (hm : 0 < m) (f t h : String)
    (U : List (String × List String)) (T : Nat) (ds : List String)
    (hlt : m < ds.length) :
    seg_start_result m f t h
        (U ++ [(segment_object_name f t (U.length + 1), h :: ds.take m)])
        (T + m) (ds.drop m) =
      seg_start_result m f t h U T ds := by
  have hdrop_len : (ds.drop m).length = ds.length - m := List.length_drop m ds
  have hdrop_ne : ds.drop m ≠ [] := by
    intro hd
    rw [hd] at hdrop_len
    simp at hdrop_len
    omega
  have hch : chunksOf m ds = ds.take m :: chunksOf m (ds.drop m) :=
    chunksOf_eq_cons_of_lt hm hlt
  obtain ⟨g, gs', hgs⟩ := List.exists_cons_of_ne_nil (chunksOf_ne_nil (m := m) hdrop_ne)
  unfold seg_start_result
  rw [hch, hgs]
  simp only [List.dropLast_cons₂, List.getLastD_cons, List.length_append,
    List.length_cons, List.length_singleton, expected_uploads_from]
  rw [StreamState.mk.injEq]
  refine ⟨?_, rfl, rfl, ?_, ?_, rfl⟩
  · simp
  · rw [hdrop_len]; omega
  · simp; omega

theorem data_fold_closed (m : Nat) (hm : 0 < m) (f t h : String) :
    ∀ (n : Nat) (ds : List String), ds.length ≤ n → ds ≠ [] →
      (∀ d ∈ ds, is_blank d = false) →
      ∀ (U : List (String × List String)) (T : Nat),
        ds.foldl (process_line m f t) ⟨U, [h], 0, T, U.length + 1, some h⟩ =
          seg_start_result m f t h U T ds := by
  intro n
  induction n with
  | zero =>
    intro ds hlen hne _ _ _
    cases ds with
    | nil => exact absurd rfl hne
    | cons d ds => simp at hlen
  | succ k ih =>
    intro ds hlen hne hnb U T
    rcases le_or_lt ds.length m with hle | hlt
    · rw [fold_fill m f t h ds [] U 0 T (U.length + 1) rfl (by simpa using hle) hnb]
      unfold seg_start_result
      rw [chunksOf_eq_single hne hle]
      simp [expected_uploads_from]
    · have htake_len : (ds.take m).length = m := by rw [List.length_take]; omega
      have hdrop_len : (ds.drop m).length = ds.length - m := List.length_drop m ds
      have hdrop_ne : ds.drop m ≠ [] := by
        intro hd
        rw [hd] at hdrop_len
        simp at hdrop_len
        omega
      have hnb_take : ∀ x ∈ ds.take m, is_blank x = false :=
        fun x hx => hnb x (List.take_subset m ds hx)
      have hnb_drop : ∀ x ∈ ds.drop m, is_blank x = false :=
        fun x hx => hnb x (List.drop_subset m ds hx)
      have hsplit : ds.foldl (process_line m f t)
          (⟨U, [h], 0, T, U.length + 1, some h⟩ : StreamState) =
          (ds.drop m).foldl (process_line m f t)
            ((ds.take m).foldl (process_line m f t)
              ⟨U, [h], 0, T, U.length + 1, some h⟩) := by
        conv_lhs => rw [← List.take_append_drop m ds]
        rw [List.foldl_append]
      rw [hsplit,
        fold_fill m f t h (ds.take m) [] U 0 T (U.length + 1) rfl
          (by simp [htake_len]) hnb_take]
      simp only [List.nil_append, Nat.zero_add, htake_len]
      obtain ⟨d, rest, hdr⟩ := List.exists_cons_of_ne_nil hdrop_ne
      have hd_nb : is_blank d = false :=
        hnb_drop d (by rw [hdr]; exact List.mem_cons_self d rest)
      rw [hdr, List.foldl_cons,
        process_line_data_ge m f t U (h :: ds.take m) m (T + m) h d hd_nb le_rfl
          (by simp)]
      have hstep_back :
          (⟨U ++ [(segment_object_name f t (U.length + 1), h :: ds.take m)],
            [h, d], 1, T + m + 1, U.length + 2, some h⟩ : StreamState) =
          process_line m f t
            ⟨U ++ [(segment_object_name f t (U.length + 1), h :: ds.take m)],
              [h], 0, T + m,
              (U ++ [(segment_object_name f t (U.length + 1), h :: ds.take m)]).length + 1,
              some h⟩ d := by
        rw [process_line_data_lt m f t _ [h] 0 (T + m) _ h d hd_nb hm]
        simp
      rw [hstep_back, ← List.foldl_cons, ← hdr,
        ih (ds.drop m) (by omega) hdrop_ne hnb_drop _ (T + m)]
      exact seg_start_result_peel m hm f t h U T ds hlt

theorem foldl_process_line_filter (m : Nat) (f t : String) :
    ∀ (lines : List String) (s : StreamState),
      lines.foldl (process_line m f t) s =
        (lines.filter (fun l => !(is_blank l))).foldl (process_line m f t) s := by
  intro lines
  induction lines with
  | nil => intro s; rfl
  | cons l ls ih =>
    intro s
    rw [List.foldl_cons, List.filter_cons]
    cases hbl : is_blank l with
    | true =>
      rw [process_line_blank m f t s l hbl]
      simp only [hbl, Bool.not_true, if_false]
      exact ih s
    | false =>
      simp only [hbl, Bool.not_false, if_true, List.foldl_cons]
      exact ih _

theorem process_chunks_no_marker (m : Nat) (f t : String) :
    ∀ (chunks : List String) (s : StreamState),
      (∀ c ∈ chunks, contains_sub streamErrorMarker.data c.data = false) →
      process_chunks m f t s chunks =
        .ok ((all_lines chunks).foldl (process_line m f t) s) := by
  intro chunks
  induction chunks with
  | nil => intro s _; rfl
  | cons c cs ih =>
    intro s hnm
    have hc : contains_sub streamErrorMarker.data c.data = false :=
      hnm c (List.mem_cons_self c cs)
    simp only [process_chunks, hc, Bool.false_eq_true, if_false]
    rw [ih _ (fun c' hc' => hnm c' (List.mem_cons_of_mem c hc'))]
    unfold all_lines
    rw [List.map_cons, List.flatten_cons, List.foldl_append]

theorem finalize_seg_start (m : Nat) (f t h : String) (ds : List String)
    (hds : ds ≠ []) :
    finalize_current_file f t (seg_start_result m f t h [] 0 ds) =
      ⟨expected_uploads f t h m ds, [], 0, ds.length,
        (chunksOf m ds).length + 1, some h⟩ := by
  have hch_ne : chunksOf m ds ≠ [] := chunksOf_ne_nil hds
  have hrecomb : (chunksOf m ds).dropLast ++ [(chunksOf m ds).getLastD []] =
      chunksOf m ds := by
    rw [List.getLastD_eq_getLast?, List.getLast?_eq_getLast _ hch_ne]
    exact List.dropLast_append_getLast hch_ne
  have heuf_len : (expected_uploads_from f t h 1 (chunksOf m ds).dropLast).length =
      ((chunksOf m ds).dropLast).length := expected_uploads_from_length f t h _ 1
  have hstate : seg_start_result m f t h [] 0 ds =
      ⟨expected_uploads_from f t h 1 (chunksOf m ds).dropLast,
        h :: (chunksOf m ds).getLastD [],
        ((chunksOf m ds).getLastD []).length,
        ds.length,
        (expected_uploads_from f t h 1 (chunksOf m ds).dropLast).length + 1,
        some h⟩ := by
    unfold seg_start_result
    rw [StreamState.mk.injEq]
    refine ⟨by simp, rfl, rfl, by simp, by rw [heuf_len]; simp, rfl⟩
  rw [hstate,
    finalize_eq_upload f t _ (h :: (chunksOf m ds).getLastD []) _ ds.length (some h)
      (List.cons_ne_nil _ _)]
  rw [StreamState.mk.injEq]
  refine ⟨?_, rfl, rfl, rfl, ?_, rfl⟩
  · unfold expected_uploads
    rw [heuf_len]
    have hidx : ((chunksOf m ds).dropLast).length + 1 =
        1 + ((chunksOf m ds).dropLast).length := by omega
    rw [hidx, ← expected_uploads_from_append_single, hrecomb]
  · rw [heuf_len, ← hrecomb]
    simp

theorem stream_segments_closed (m : Nat) (hm : 0 < m) (chunks : List String)
    (f t h : String) (ds : List String)
    (hnl : nonblank_lines chunks = h :: ds) (hds : ds ≠ [])
    (hnm : ∀ c ∈ chunks, contains_sub streamErrorMarker.data c.data = false) :
    stream_segments chunks f m t =
      .ok ⟨expected_uploads f t h m ds, [], 0, ds.length,
        (chunksOf m ds).length + 1, some h⟩ := by
  have hh_nb : is_blank h = false := by
    have hmem : h ∈ nonblank_lines chunks := by
      rw [hnl]; exact List.mem_cons_self h ds
    have := List.of_mem_filter hmem
    simpa using this
  have hds_nb : ∀ d ∈ ds, is_blank d = false := by
    intro d hd
    have hmem : d ∈ nonblank_lines chunks := by
      rw [hnl]; exact List.mem_cons_of_mem h hd
    have := List.of_mem_filter hmem
    simpa using this
  unfold stream_segments
  rw [process_chunks_no_marker m f t chunks initStreamState hnm]
  have hnl' : (all_lines chunks).filter (fun l => !(is_blank l)) = h :: ds := hnl
  rw [foldl_process_line_filter, hnl', List.foldl_cons]
  show Except.ok (finalize_current_file f t
    ((ds.foldl (process_line m f t) (process_line m f t initStreamState h)))) = _
  have hinit : process_line m f t initStreamState h =
      ⟨[], [h], 0, 0, ([] : List (String × List String)).length + 1, some h⟩ := by
    show process_line m f t ⟨[], [], 0, 0, 1, none⟩ h = _
    rw [process_line_header m f t [] [] 0 0 1 h hh_nb]
    simp
  rw [hinit,
    data_fold_closed m hm f t h ds.length ds le_rfl hds hds_nb [] 0,
    finalize_seg_start m f t h ds hds]

theorem foldl_put_disjoint :
    ∀ (ups : List (String × List String)) (st : Store),
      (∀ p ∈ ups, ∀ q ∈ st, q.1 ≠ p.1) → (ups.map Prod.fst).Nodup →
      ups.foldl (fun acc p => putObject acc p.1 (.csv p.2)) st =
        st ++ ups.map (fun p => (p.1, ObjectData.csv p.2)) := by
  intro ups
  induction ups with
  | nil => intro st _ _; simp
  | cons p ups ih =>
    intro st hdisj hnd
    obtain ⟨hnot, hnd'⟩ := List.nodup_cons.mp hnd
    rw [List.foldl_cons]
    have hput : putObject st p.1 (.csv p.2) = st ++ [(p.1, ObjectData.csv p.2)] := by
      unfold putObject
      congr 1
      apply List.filter_eq_self.mpr
      intro q hq
      simpa using hdisj p (List.mem_cons_self p ups) q hq
    rw [hput]
    rw [ih (st ++ [(p.1, ObjectData.csv p.2)])
      (by
        intro p' hp' q hq
        rcases List.mem_append.mp hq with hq | hq
        · exact hdisj p' (List.mem_cons_of_mem p hp') q hq
        · simp only [List.mem_singleton] at hq
          subst hq
          intro hcontra
          exact hnot (hcontra ▸ List.mem_map_of_mem Prod.fst hp'))
      hnd']
    simp

theorem create_zip_loop_closed :
    ∀ (ups : List (String × List String)),
      (ups.map Prod.fst).Nodup →
      create_zip_loop (ups.map (fun p => (p.1, ObjectData.csv p.2)))
          (ups.map Prod.fst) =
        some ([], ups.map (fun p => (bare_name p.1, p.2))) := by
  intro ups
  induction ups with
  | nil => intro _; rfl
  | cons p ups ih =>
    intro hnd
    obtain ⟨hnot, hnd'⟩ := List.nodup_cons.mp hnd
    rw [List.map_cons, List.map_cons]
    have hget : getObject
        ((p.1, ObjectData.csv p.2) :: ups.map (fun p => (p.1, ObjectData.csv p.2)))
        p.1 = some (ObjectData.csv p.2) := by
      unfold getObject
      rw [List.find?_cons_of_pos _ (by simp)]
      rfl
    have hrem : removeObject
        ((p.1, ObjectData.csv p.2) :: ups.map (fun p => (p.1, ObjectData.csv p.2)))
        p.1 = ups.map (fun p => (p.1, ObjectData.csv p.2)) := by
      unfold removeObject
      rw [List.filter_cons]
      have hcond : (decide ((p.1, ObjectData.csv p.2).1 ≠ p.1)) = false := by simp
      rw [hcond]
      simp only [Bool.false_eq_true, if_false]
      apply List.filter_eq_self.mpr
      intro q hq
      obtain ⟨p', hp', hq'⟩ := List.mem_map.mp hq
      subst hq'
      simp only [ne_eq, decide_eq_true_eq]
      intro hcontra
      exact hnot (hcontra ▸ List.mem_map_of_mem Prod.fst hp')
    show create_zip_loop _ (p.1 :: ups.map Prod.fst) = _
    unfold create_zip_loop
    rw [hget, hrem, ih hnd']
    rfl

theorem stream_csv_to_minio_ok (store0 : Store) (chunks : List String)
    (f : String) (m : Nat) (t : String) (s : StreamState)
    (hseg : stream_segments chunks f m t = .ok s) :
    stream_csv_to_minio store0 chunks f m t = stream_finish store0 f t s := by
  unfold stream_csv_to_minio
  rw [hseg]

theorem stream_csv_to_minio_err (store0 : Store) (chunks : List String)
    (f : String) (m : Nat) (t : String) (es : StreamError × StreamState)
    (hseg : stream_segments chunks f m t = .error es) :
    stream_csv_to_minio store0 chunks f m t = .error es := by
  unfold stream_csv_to_minio
  rw [hseg]

theorem stream_run_single (m : Nat) (hm : 0 < m) (chunks : List String)
    (f t h : String) (ds : List String)
    (hnl : nonblank_lines chunks = h :: ds) (hds : ds ≠ [])
    (hsm : ds.length ≤ m)
    (hnm : ∀ c ∈ chunks, contains_sub streamErrorMarker.data c.data = false) :
    stream_csv_to_minio [] chunks f m t =
      .ok ⟨segment_object_name f t 1, ds.length, 1,
        [(segment_object_name f t 1, h :: ds)],
        [(segment_object_name f t 1, ObjectData.csv (h :: ds))]⟩ := by
  rw [stream_csv_to_minio_ok [] chunks f m t _
    (stream_segments_closed m hm chunks f t h ds hnl hds hnm)]
  have hupl : expected_uploads f t h m ds = [(segment_object_name f t 1, h :: ds)] := by
    unfold expected_uploads
    rw [chunksOf_eq_single hds hsm]
    rfl
  simp [stream_finish, hupl, putObject]

theorem stream_run_multi (m : Nat) (hm : 0 < m) (chunks : List String)
    (f t h : String) (ds : List String)
    (hnl : nonblank_lines chunks = h :: ds) (hds : ds ≠ [])
    (hlt : m < ds.length)
    (hnm : ∀ c ∈ chunks, contains_sub streamErrorMarker.data c.data = false)
    (hnd : ((expected_uploads f t h m ds).map Prod.fst).Nodup) :
    stream_csv_to_minio [] chunks f m t =
      .ok ⟨zip_object_name f t, ds.length, (chunksOf m ds).length,
        expected_uploads f t h m ds,
        [(zip_object_name f t, ObjectData.zip (expected_entries f t h m ds))]⟩ := by
  rw [stream_csv_to_minio_ok [] chunks f m t _
    (stream_segments_closed m hm chunks f t h ds hnl hds hnm)]
  have hlen : (expected_uploads f t h m ds).length = (chunksOf m ds).length :=
    expected_uploads_from_length f t h _ 1
  have hk2 : 2 ≤ (chunksOf m ds).length := by
    rw [chunksOf_length_eq hm ds.length ds le_rfl hds]
    unfold ceil_div
    rw [Nat.le_div_iff_mul_le hm]
    omega
  have hstore : (expected_uploads f t h m ds).foldl
      (fun acc p => putObject acc p.1 (.csv p.2)) [] =
      (expected_uploads f t h m ds).map (fun p => (p.1, ObjectData.csv p.2)) := by
    rw [foldl_put_disjoint (expected_uploads f t h m ds) []
      (by intro p _ q hq; simp at hq) hnd]
    simp
  have hzip := create_zip_loop_closed (expected_uploads f t h m ds) hnd
  have hne0 : ¬ ((expected_uploads f t h m ds).length = 0) := by omega
  have hgt1 : (expected_uploads f t h m ds).length > 1 := by omega
  simp only [stream_finish]
  rw [if_neg hne0, if_pos hgt1, hstore]
  unfold create_zip_from_uploaded_files
  rw [hzip]
  rw [Except.ok.injEq, StreamOutcome.mk.injEq]
  refine ⟨rfl, rfl, hlen, rfl, ?_⟩
  simp only [putObject, List.filter_nil, List.nil_append]
  rfl

/-- C1: for every finite chunk sequence whose total data-row count is
`n ≥ 1` and every per-file limit `m > 0`, `stream_csv_to_minio` produces
exactly `ceil(n / m)` segment uploads before consolidation and returns
`total_rows = n` and `file_count = ceil(n / m)`.  The sequence is assumed
free of the upstream error marker (a marker chunk is a failure signal, not
data), and the produced segment names are assumed pairwise distinct (they
are for any ordinary filename; a collision would make the consolidation
read-back fail instead of returning). -/
theorem C1_segment_count_and_totals (m n : Nat) (chunks : List String)
    (f t h : String) (ds : List String)
    (hm : 0 < m)
    (hnl : nonblank_lines chunks = h :: ds)
    (hn : ds.length = n) (hn1 : 1 ≤ n)
    (hnm : ∀ c ∈ chunks, contains_sub streamErrorMarker.data c.data = false)
    (hnd : ((expected_uploads f t h m ds).map Prod.fst).Nodup) :
    ∃ r : StreamOutcome, stream_csv_to_minio [] chunks f m t = .ok r ∧
      r.uploads.length = ceil_div n m ∧
      r.totalRows = n ∧ r.fileCount = ceil_div n m := by
  have hds : ds ≠ [] := by
    intro hd
    subst hd
    simp at hn
    omega
  rcases le_or_lt ds.length m with hle | hlt
  · refine ⟨_, stream_run_single m hm chunks f t h ds hnl hds hle hnm, ?_, hn, ?_⟩
    · show 1 = ceil_div n m
      rw [ceil_div_eq_one hn1 (by omega)]
    · show 1 = ceil_div n m
      rw [ceil_div_eq_one hn1 (by omega)]
  · refine ⟨_, stream_run_multi m hm chunks f t h ds hnl hds hlt hnm hnd, ?_, hn, ?_⟩
    · show (expected_uploads f t h m ds).length = ceil_div n m
      unfold expected_uploads
      rw [expected_uploads_from_length,
        chunksOf_length_eq hm ds.length ds le_rfl hds, hn]
    · show (chunksOf m ds).length = ceil_div n m
      rw [chunksOf_length_eq hm ds.length ds le_rfl hds, hn]

/-- Witness for C1 at a concrete input: 3 data rows, limit 2, giving
`ceil(3 / 2) = 2` segments. -/
theorem C1_witness :
    ∃ r : StreamOutcome,
      stream_csv_to_minio [] ["h\na\nb\nc"] "report.csv" 2 "20260101_120000" =
        .ok r ∧
      r.uploads.length = ceil_div 3 2 ∧ r.totalRows = 3 ∧
      r.fileCount = ceil_div 3 2 :=
  C1_segment_count_and_totals 2 3 ["h\na\nb\nc"] "report.csv" "20260101_120000"
    "h" ["a", "b", "c"] (by decide) (by decide) (by decide) (by decide)
    (by decide) (by decide)

/-- C2: every segment uploaded by the splitting stage has the job's shared
header as its first line, holds at most `m` data rows after the header, the
segments' data rows concatenated in upload order are exactly the original
data rows (no row is split across or dropped between segments), and the
header is counted neither toward the per-segment limit nor toward
`total_rows`. -/
theorem C2_segment_invariants (m : Nat) (chunks : List String)
    (f t h : String) (ds : List String)
    (hm : 0 < m)
    (hnl : nonblank_lines chunks = h :: ds) (hds : ds ≠ [])
    (hnm : ∀ c ∈ chunks, contains_sub streamErrorMarker.data c.data = false) :
    ∃ S : StreamState, stream_segments chunks f m t = .ok S ∧
      (∀ u ∈ S.uploads, u.2.head? = some h ∧ u.2.tail.length ≤ m) ∧
      (S.uploads.map (fun u => u.2.tail)).flatten = ds ∧
      S.totalRows = ds.length := by
  refine ⟨_, stream_segments_closed m hm chunks f t h ds hnl hds hnm, ?_, ?_, rfl⟩
  · intro u hu
    obtain ⟨g, hg, hu2⟩ := expected_uploads_from_mem f t h _ 1 u hu
    obtain ⟨hgne, hgle⟩ := chunksOf_mem_length hm ds.length ds le_rfl g hg
    rw [hu2]
    exact ⟨rfl, by simpa using hgle⟩
  · show ((expected_uploads f t h m ds).map (fun u => u.2.tail)).flatten = ds
    unfold expected_uploads
    rw [expected_uploads_from_map_tail]
    exact chunksOf_flatten hm ds.length ds le_rfl

/-- Witness for C2 at a concrete input: 3 data rows, limit 2. -/
theorem C2_witness :
    ∃ S : StreamState,
      stream_segments ["h\na\nb\nc"] "report.csv" 2 "20260101_120000" = .ok S ∧
      (∀ u ∈ S.uploads, u.2.head? = some "h" ∧ u.2.tail.length ≤ 2) ∧
      (S.uploads.map (fun u => u.2.tail)).flatten = ["a", "b", "c"] ∧
      S.totalRows = ["a", "b", "c"].length :=
  C2_segment_invariants 2 ["h\na\nb\nc"] "report.csv" "20260101_120000" "h"
    ["a", "b", "c"] (by decide) (by decide) (by decide) (by decide)

/-- C3 (failing input): a source sequence yielding only the header line.
The spec requires the empty-result error with no stored object, but the
code's `finalize_current_file` only checks that the buffer holds bytes
(`tell() > 0`), and the header was written into it: the run uploads one
header-only segment and returns successfully with `total_rows = 0`,
`file_count = 1`.  Only a sequence with no non-blank line at all raises
`ValueError("No data to export")`. -/
theorem C3_header_only_uploads_header_file :
    stream_csv_to_minio [] ["col1,col2\n"] "report.csv" 1000000
        "20260101_120000" =
      .ok ⟨"exports/20260101_120000_report.csv", 0, 1,
        [("exports/20260101_120000_report.csv", ["col1,col2"])],
        [("exports/20260101_120000_report.csv", ObjectData.csv ["col1,col2"])]⟩ ∧
    stream_csv_to_minio [] [] "report.csv" 1000000 "20260101_120000" =
      .error (.valueError "No data to export", initStreamState) := by
  constructor
  · decide
  · decide

/-- C4 (counterexample): a sentinel chunk with a colon before the marker.
The code raises `ValueError(chunk.split(":", 1)[1].strip())`, i.e. the text
after the chunk's FIRST colon, so for the chunk
`"Results: __STREAM_ERROR__: boom"` (marker followed by `": boom"`, embedded
message `"boom"`) the raised message is `"__STREAM_ERROR__: boom"`, not the
embedded message.  The already-uploaded segment is retained in the error
state, and the chunk contributes no rows. -/
theorem C4_counterexample :
    stream_csv_to_minio [] ["h\na\nb", "Results: __STREAM_ERROR__: boom"]
        "report.csv" 1 "20260101_120000" =
      .error (.valueError "__STREAM_ERROR__: boom",
        ⟨[("exports/20260101_120000_report.csv", ["h", "a"])],
          ["h", "b"], 1, 2, 2, some "h"⟩) ∧
    ("__STREAM_ERROR__: boom" : String) ≠ "boom" := by
  constructor
  · decide
  · decide

theorem process_chunks_cons_marker (m : Nat) (f t : String) (s : StreamState)
    (c : String) (cs : List String)
    (hc : contains_sub streamErrorMarker.data c.data = true) :
    process_chunks m f t s (c :: cs) = .error (sentinel_error c, s) := by
  unfold process_chunks
  rw [if_pos hc]

theorem process_chunks_cons_clean (m : Nat) (f t : String) (s : StreamState)
    (c : String) (cs : List String)
    (hc : contains_sub streamErrorMarker.data c.data = false) :
    process_chunks m f t s (c :: cs) =
      process_chunks m f t
        ((py_split_lines c).foldl (process_line m f t) s) cs := by
  unfold process_chunks
  rw [if_neg (by simp [hc])]
  cases cs with
  | nil => rfl
  | cons c2 cs2 => rfl

theorem process_chunks_append (m : Nat) (f t : String) :
    ∀ (l1 l2 : List String) (s : StreamState),
      process_chunks m f t s (l1 ++ l2) =
        match process_chunks m f t s l1 with
        | .error e => .error e
        | .ok s1 => process_chunks m f t s1 l2 := by
  intro l1
  induction l1 with
  | nil => intro l2 s; rfl
  | cons c cs ih =>
    intro l2 s
    rw [List.cons_append]
    by_cases hc : contains_sub streamErrorMarker.data c.data = true
    · rw [process_chunks_cons_marker m f t s c (cs ++ l2) hc,
        process_chunks_cons_marker m f t s c cs hc]
    · rw [process_chunks_cons_clean m f t s c (cs ++ l2) (by simpa using hc),
        process_chunks_cons_clean m f t s c cs (by simpa using hc)]
      exact ih l2 _

/-- C4 (amended): a chunk containing the error marker aborts the whole
operation before any of its lines is treated as data; the raised error is a
`ValueError` whose message is the chunk's text after its FIRST colon with
surrounding whitespace stripped (this equals the embedded `<message>` only
when no text before the marker contains a colon), and the state carried by
the error is exactly the state after the preceding chunks — segments
already uploaded remain, nothing is deleted. -/
theorem C4_amended_sentinel (store0 : Store) (pre post : List String)
    (c : String) (m : Nat) (f t : String) (s : StreamState)
    (a b : List Char)
    (hpre : process_chunks m f t initStreamState pre = .ok s)
    (hmk : contains_sub streamErrorMarker.data c.data = true)
    (hsp : split_first ':' c.data = some (a, b)) :
    stream_csv_to_minio store0 (pre ++ c :: post) f m t =
      .error (.valueError ⟨strip_chars b⟩, s) := by
  have hsent : sentinel_error c = .valueError ⟨strip_chars b⟩ := by
    unfold sentinel_error
    rw [hsp]
  have h2 : process_chunks m f t initStreamState (pre ++ c :: post) =
      .error (.valueError ⟨strip_chars b⟩, s) := by
    rw [process_chunks_append m f t pre (c :: post) initStreamState, hpre]
    show process_chunks m f t s (c :: post) = _
    rw [process_chunks_cons_marker m f t s c post hmk, hsent]
  have hseg : stream_segments (pre ++ c :: post) f m t =
      .error (.valueError ⟨strip_chars b⟩, s) := by
    unfold stream_segments
    rw [h2]
  exact stream_csv_to_minio_err store0 _ f m t _ hseg

/-- Witness for the amended C4 at a concrete input: one chunk of data, then
the canonical sentinel chunk `"__STREAM_ERROR__: boom"`; the run aborts with
message `"boom"` and the pre-sentinel state. -/
theorem C4_amended_witness :
    stream_csv_to_minio [] (["h\nr1"] ++ "__STREAM_ERROR__: boom" :: [])
        "report.csv" 5 "20260101_120000" =
      .error (.valueError ⟨strip_chars " boom".data⟩,
        ⟨[], ["h", "r1"], 1, 1, 1, some "h"⟩) :=
  C4_amended_sentinel [] ["h\nr1"] [] "__STREAM_ERROR__: boom" 5 "report.csv"
    "20260101_120000" ⟨[], ["h", "r1"], 1, 1, 1, some "h"⟩
    "__STREAM_ERROR__".data " boom".data (by decide) (by decide) (by decide)

/-- C5 (counterexample): for the non-`.csv` filename `"data.txt"` the second
segment is named `"exports/<ts>_data.txt_2.csv"` — the code appends
`"_<index>.csv"` after removing only `".csv"` occurrences — and not
`"exports/<ts>_data_2.txt"`, which the claim's "base minus its extension
plus the original extension" rule would give. -/
theorem C5_counterexample :
    stream_segments ["h\na\nb"] "data.txt" 1 "20260101_120000" =
      .ok ⟨[("exports/20260101_120000_data.txt", ["h", "a"]),
            ("exports/20260101_120000_data.txt_2.csv", ["h", "b"])],
        [], 0, 2, 3, some "h"⟩ ∧
    ("exports/20260101_120000_data.txt_2.csv" : String) ≠
      "exports/20260101_120000_data_2.txt" := by
  constructor
  · decide
  · decide

/-- C5 (amended): the first uploaded segment keeps the caller-supplied
filename unchanged; every later segment `j ≥ 2` is named the filename with
every `".csv"` occurrence removed, an underscore, the segment index `j`, and
the fixed `".csv"` suffix (regardless of the original extension); and all
segment object names share the job-scoped `exports/<timestamp>_` prefix with
the job's single timestamp token. -/
theorem C5_amended_naming (m : Nat) (chunks : List String)
    (f t h : String) (ds : List String)
    (hm : 0 < m)
    (hnl : nonblank_lines chunks = h :: ds) (hds : ds ≠ [])
    (hnm : ∀ c ∈ chunks, contains_sub streamErrorMarker.data c.data = false) :
    ∃ S : StreamState, stream_segments chunks f m t = .ok S ∧
      S.uploads.map Prod.fst =
        (List.range (chunksOf m ds).length).map
          (fun i => segment_object_name f t (i + 1)) ∧
      segment_object_name f t 1 = "exports/" ++ t ++ "_" ++ f ∧
      (∀ j, 2 ≤ j → segment_object_name f t j =
        "exports/" ++ t ++ "_" ++
          (py_replace f ".csv" "" ++ "_" ++ toString j ++ ".csv")) ∧
      (∀ nm ∈ S.uploads.map Prod.fst,
        ∃ rest, nm = "exports/" ++ t ++ "_" ++ rest) := by
  refine ⟨_, stream_segments_closed m hm chunks f t h ds hnl hds hnm, ?_, rfl,
    ?_, ?_⟩
  · show (expected_uploads f t h m ds).map Prod.fst = _
    unfold expected_uploads
    rw [expected_uploads_from_map_fst]
    apply List.map_congr_left
    intro i _
    congr 1
    omega
  · intro j hj
    have hj1 : ¬ (j = 1) := by omega
    simp only [segment_object_name, hj1, if_false, String.append_assoc]
  · intro nm hnm'
    show ∃ rest, nm = "exports/" ++ t ++ "_" ++ rest
    have hmap : (expected_uploads f t h m ds).map Prod.fst =
        (List.range (chunksOf m ds).length).map
          (fun i => segment_object_name f t (1 + i)) := by
      unfold expected_uploads
      exact expected_uploads_from_map_fst f t h _ 1
    rw [hmap] at hnm'
    obtain ⟨i, _, hni⟩ := List.mem_map.mp hnm'
    subst hni
    by_cases hi : 1 + i = 1
    · rw [hi]
      exact ⟨f, rfl⟩
    · refine ⟨py_replace f ".csv" "" ++ "_" ++ toString (1 + i) ++ ".csv", ?_⟩
      simp only [segment_object_name, hi, if_false, String.append_assoc]

/-- Witness for the amended C5 at a concrete input: 2 data rows, limit 1,
filename `"report.csv"`. -/
theorem C5_amended_witness :
    ∃ S : StreamState,
      stream_segments ["h\na\nb"] "report.csv" 1 "20260101_120000" = .ok S ∧
      S.uploads.map Prod.fst =
        (List.range (chunksOf 1 ["a", "b"]).length).map
          (fun i => segment_object_name "report.csv" "20260101_120000" (i + 1)) ∧
      segment_object_name "report.csv" "20260101_120000" 1 =
        "exports/" ++ "20260101_120000" ++ "_" ++ "report.csv" ∧
      (∀ j, 2 ≤ j → segment_object_name "report.csv" "20260101_120000" j =
        "exports/" ++ "20260101_120000" ++ "_" ++
          (py_replace "report.csv" ".csv" "" ++ "_" ++ toString j ++ ".csv")) ∧
      (∀ nm ∈ S.uploads.map Prod.fst,
        ∃ rest, nm = "exports/" ++ "20260101_120000" ++ "_" ++ rest) :=
  C5_amended_naming 1 ["h\na\nb"] "report.csv" "20260101_120000" "h" ["a", "b"]
    (by decide) (by decide) (by decide) (by decide)

/-- C6: on a successful run starting from an empty job store, if exactly one
segment was produced the returned object is that CSV object and the store
holds exactly it with no archive object; if more than one segment was
produced the store holds exactly one archive object, none of the original
segment objects (name paired with its CSV data) remains, and the returned
object name is the archive's. -/
theorem C6_store_after_run (m : Nat) (chunks : List String)
    (f t h : String) (ds : List String)
    (hm : 0 < m)
    (hnl : nonblank_lines chunks = h :: ds) (hds : ds ≠ [])
    (hnm : ∀ c ∈ chunks, contains_sub streamErrorMarker.data c.data = false)
    (hnd : ((expected_uploads f t h m ds).map Prod.fst).Nodup) :
    ∃ r : StreamOutcome, stream_csv_to_minio [] chunks f m t = .ok r ∧
      (r.fileCount = 1 →
        r.store = [(r.objectName, ObjectData.csv (h :: ds))] ∧
        r.objectName = segment_object_name f t 1 ∧
        ∀ p ∈ r.store, ∀ es, p.2 ≠ ObjectData.zip es) ∧
      (1 < r.fileCount →
        r.store =
          [(zip_object_name f t, ObjectData.zip (expected_entries f t h m ds))] ∧
        r.objectName = zip_object_name f t ∧
        ∀ u ∈ r.uploads, (u.1, ObjectData.csv u.2) ∉ r.store) := by
  rcases le_or_lt ds.length m with hle | hlt
  · refine ⟨_, stream_run_single m hm chunks f t h ds hnl hds hle hnm, ?_, ?_⟩
    · intro _
      refine ⟨rfl, rfl, ?_⟩
      intro p hp es
      simp only [List.mem_singleton] at hp
      subst hp
      simp
    · intro hgt
      simp at hgt
  · have hk2 : 2 ≤ (chunksOf m ds).length := by
      rw [chunksOf_length_eq hm ds.length ds le_rfl hds]
      unfold ceil_div
      rw [Nat.le_div_iff_mul_le hm]
      omega
    refine ⟨_, stream_run_multi m hm chunks f t h ds hnl hds hlt hnm hnd, ?_, ?_⟩
    · intro h1
      have h1' : (chunksOf m ds).length = 1 := h1
      omega
    · intro _
      refine ⟨rfl, rfl, ?_⟩
      intro u _ hin
      simp at hin

/-- Witness for C6 at a concrete multi-segment input: 2 data rows, limit 1. -/
theorem C6_witness :
    ∃ r : StreamOutcome,
      stream_csv_to_minio [] ["h\na\nb"] "report.csv" 1 "20260101_120000" =
        .ok r ∧
      (r.fileCount = 1 →
        r.store = [(r.objectName, ObjectData.csv ("h" :: ["a", "b"]))] ∧
        r.objectName = segment_object_name "report.csv" "20260101_120000" 1 ∧
        ∀ p ∈ r.store, ∀ es, p.2 ≠ ObjectData.zip es) ∧
      (1 < r.fileCount →
        r.store = [(zip_object_name "report.csv" "20260101_120000",
          ObjectData.zip
            (expected_entries "report.csv" "20260101_120000" "h" 1 ["a", "b"]))] ∧
        r.objectName = zip_object_name "report.csv" "20260101_120000" ∧
        ∀ u ∈ r.uploads, (u.1, ObjectData.csv u.2) ∉ r.store) :=
  C6_store_after_run 1 ["h\na\nb"] "report.csv" "20260101_120000" "h" ["a", "b"]
    (by decide) (by decide) (by decide) (by decide) (by decide)

/-- C7: round-trip for every multi-segment export — the consolidated archive
holds exactly `file_count` entries, keyed by each segment's bare filename
(directory components stripped), each entry starts with the shared header,
and concatenating the entries' data rows in archive entry order after
removing each entry's header line reconstructs the original data-row
sequence in its original order. -/
theorem C7_round_trip (m : Nat) (chunks : List String)
    (f t h : String) (ds : List String)
    (hm : 0 < m)
    (hnl : nonblank_lines chunks = h :: ds)
    (hlt : m < ds.length)
    (hnm : ∀ c ∈ chunks, contains_sub streamErrorMarker.data c.data = false)
    (hnd : ((expected_uploads f t h m ds).map Prod.fst).Nodup) :
    ∃ r : StreamOutcome,
      stream_csv_to_minio [] chunks f m t = .ok r ∧ 1 < r.fileCount ∧
      r.store =
        [(zip_object_name f t, ObjectData.zip (expected_entries f t h m ds))] ∧
      (expected_entries f t h m ds).length = r.fileCount ∧
      (expected_entries f t h m ds).map Prod.fst =
        (r.uploads.map Prod.fst).map bare_name ∧
      (∀ e ∈ expected_entries f t h m ds, e.2.head? = some h) ∧
      ((expected_entries f t h m ds).map (fun e => e.2.tail)).flatten = ds := by
  have hds : ds ≠ [] := by
    intro hd
    subst hd
    simp at hlt
  have hk2 : 2 ≤ (chunksOf m ds).length := by
    rw [chunksOf_length_eq hm ds.length ds le_rfl hds]
    unfold ceil_div
    rw [Nat.le_div_iff_mul_le hm]
    omega
  refine ⟨_, stream_run_multi m hm chunks f t h ds hnl hds hlt hnm hnd,
    hk2, rfl, ?_, ?_, ?_, ?_⟩
  · show (expected_entries f t h m ds).length = (chunksOf m ds).length
    unfold expected_entries expected_uploads
    rw [List.length_map, expected_uploads_from_length]
  · show (expected_entries f t h m ds).map Prod.fst =
      ((expected_uploads f t h m ds).map Prod.fst).map bare_name
    unfold expected_entries
    rw [List.map_map, List.map_map]
    rfl
  · intro e he
    unfold expected_entries at he
    obtain ⟨u, hu, heq⟩ := List.mem_map.mp he
    obtain ⟨g, hg, hu2⟩ := expected_uploads_from_mem f t h _ 1 u hu
    subst heq
    show u.2.head? = some h
    rw [hu2]
    rfl
  · show ((expected_entries f t h m ds).map (fun e => e.2.tail)).flatten = ds
    unfold expected_entries
    rw [List.map_map]
    show ((expected_uploads f t h m ds).map (fun u => u.2.tail)).flatten = ds
    unfold expected_uploads
    rw [expected_uploads_from_map_tail]
    exact chunksOf_flatten hm ds.length ds le_rfl

/-- Witness for C7 at a concrete input: 2 data rows, limit 1, 2 segments. -/
theorem C7_witness :
    ∃ r : StreamOutcome,
      stream_csv_to_minio [] ["h\na\nb"] "report.csv" 1 "20260101_120000" =
        .ok r ∧ 1 < r.fileCount ∧
      r.store = [(zip_object_name "report.csv" "20260101_120000",
        ObjectData.zip
          (expected_entries "report.csv" "20260101_120000" "h" 1 ["a", "b"]))] ∧
      (expected_entries "report.csv" "20260101_120000" "h" 1 ["a", "b"]).length =
        r.fileCount ∧
      (expected_entries "report.csv" "20260101_120000" "h" 1 ["a", "b"]).map
          Prod.fst =
        (r.uploads.map Prod.fst).map bare_name ∧
      (∀ e ∈ expected_entries "report.csv" "20260101_120000" "h" 1 ["a", "b"],
        e.2.head? = some "h") ∧
      ((expected_entries "report.csv" "20260101_120000" "h" 1 ["a", "b"]).map
          (fun e => e.2.tail)).flatten = ["a", "b"] :=
  C7_round_trip 1 ["h\na\nb"] "report.csv" "20260101_120000" "h" ["a", "b"]
    (by decide) (by decide) (by decide) (by decide) (by decide)

theorem cleanup_loop_cons_true {cutoff : Int} {o : StoreObject}
    {os bucket : List StoreObject} {n : Nat}
    (hexp : is_expired cutoff o = true) :
    cleanup_loop cutoff (o :: os) bucket n =
      cleanup_loop cutoff os (remove_store bucket o.object_name) (n + 1) := by
  unfold cleanup_loop
  rw [if_pos hexp]
  cases os with
  | nil => rfl
  | cons o2 os2 => rfl

theorem cleanup_loop_cons_false {cutoff : Int} {o : StoreObject}
    {os bucket : List StoreObject} {n : Nat}
    (hexp : is_expired cutoff o = false) :
    cleanup_loop cutoff (o :: os) bucket n = cleanup_loop cutoff os bucket n := by
  unfold cleanup_loop
  rw [if_neg (by simp [hexp])]
  cases os with
  | nil => rfl
  | cons o2 os2 => rfl

theorem cleanup_loop_count (cutoff : Int) :
    ∀ (os bucket : List StoreObject) (n : Nat),
      (cleanup_loop cutoff os bucket n).2 =
        n + (os.filter (is_expired cutoff)).length := by
  intro os
  induction os with
  | nil => intro bucket n; simp [cleanup_loop]
  | cons o os ih =>
    intro bucket n
    cases hexp : is_expired cutoff o with
    | true =>
      rw [cleanup_loop_cons_true hexp, ih, List.filter_cons, if_pos hexp]
      simp
      omega
    | false =>
      rw [cleanup_loop_cons_false hexp, ih, List.filter_cons,
        if_neg (by simp [hexp])]

theorem cleanup_loop_store (cutoff : Int) :
    ∀ (os bucket : List StoreObject) (n : Nat),
      (cleanup_loop cutoff os bucket n).1 =
        bucket.filter (fun x =>
          !(((os.filter (is_expired cutoff)).map
              (fun o => o.object_name)).contains x.object_name)) := by
  intro os
  induction os with
  | nil =>
    intro bucket n
    show bucket = _
    simp
  | cons o os ih =>
    intro bucket n
    cases hexp : is_expired cutoff o with
    | true =>
      rw [cleanup_loop_cons_true hexp, ih, List.filter_cons, if_pos hexp]
      unfold remove_store
      rw [List.filter_filter]
      apply List.filter_congr
      intro x _
      simp only [List.map_cons, List.contains_cons, Bool.not_or]
      cases hx : x.object_name == o.object_name
      · have hx' : x.object_name ≠ o.object_name := by simpa using hx
        simp [hx']
      · have hx' : x.object_name = o.object_name := by simpa using hx
        simp [hx']
    | false =>
      rw [cleanup_loop_cons_false hexp, ih, List.filter_cons,
        if_neg (by simp [hexp])]

theorem mem_contains_names {bucket : List StoreObject}
    (hnd : (bucket.map (fun o => o.object_name)).Nodup)
    (p : StoreObject → Bool) (x : StoreObject) (hx : x ∈ bucket) :
    ((bucket.filter p).map (fun o => o.object_name)).contains x.object_name =
      p x := by
  cases hpx : p x with
  | true =>
    have hmem : x.object_name ∈ (bucket.filter p).map (fun o => o.object_name) :=
      List.mem_map_of_mem _ (List.mem_filter.mpr ⟨hx, hpx⟩)
    simpa [List.elem_iff] using hmem
  | false =>
    by_contra hcon
    have hmem : x.object_name ∈ (bucket.filter p).map (fun o => o.object_name) := by
      rcases hc : ((bucket.filter p).map (fun o => o.object_name)).contains
          x.object_name with _ | _
      · exact absurd hc hcon
      · simpa [List.elem_iff] using hc
    obtain ⟨y, hy, hyx⟩ := List.mem_map.mp hmem
    obtain ⟨hyb, hpy⟩ := List.mem_filter.mp hy
    have hxy : y = x := List.inj_on_of_nodup_map hnd hyb hx hyx
    rw [hxy] at hpy
    rw [hpy] at hpx
    cases hpx

/-- C8: `cleanup_old_files` removes exactly the objects under the
`exports/` prefix whose store-reported last-modified timestamp is strictly
older than `now - retention` — an object that is newer, exactly at the
cutoff, without a timestamp, or outside the prefix survives — and returns
the number of objects removed. -/
theorem C8_retention_sweep (bucket : List StoreObject) (now retention : Int)
    (hnd : (bucket.map (fun o => o.object_name)).Nodup) :
    (cleanup_old_files bucket now retention).1 =
      bucket.filter (fun o =>
        !(is_export_object o && is_expired (now - retention) o)) ∧
    (cleanup_old_files bucket now retention).2 =
      (bucket.filter (fun o =>
        is_export_object o && is_expired (now - retention) o)).length ∧
    (∀ o : StoreObject, ∀ tm : Int, o.last_modified = some tm →
      (is_expired (now - retention) o = true ↔ tm < now - retention)) ∧
    (∀ o : StoreObject, o.last_modified = none →
      is_expired (now - retention) o = false) := by
  refine ⟨?_, ?_, ?_, ?_⟩
  · unfold cleanup_old_files
    rw [cleanup_loop_store, List.filter_filter]
    apply List.filter_congr
    intro x hx
    rw [mem_contains_names hnd _ x hx]
    cases h1 : is_export_object x <;>
      cases h2 : is_expired (now - retention) x <;> simp [h1, h2]
  · unfold cleanup_old_files
    rw [cleanup_loop_count, List.filter_filter]
    simp only [Nat.zero_add]
    congr 1
    apply List.filter_congr
    intro x _
    cases h1 : is_export_object x <;>
      cases h2 : is_expired (now - retention) x <;> simp [h1, h2]
  · intro o tm hmod
    unfold is_expired
    rw [hmod]
    simp
  · intro o hmod
    unfold is_expired
    rw [hmod]

/-- Witness for C8 at a concrete bucket: one expired export object, one
fresh export object, one expired object outside the prefix, one export
object without a timestamp; only the first is removed. -/
theorem C8_witness :
    (cleanup_old_files
        [⟨"exports/a.csv", some 0⟩, ⟨"exports/b.csv", some 50⟩,
          ⟨"other/c.csv", some 0⟩, ⟨"exports/d.csv", none⟩] 100 60).1 =
      [⟨"exports/a.csv", some 0⟩, ⟨"exports/b.csv", some 50⟩,
        ⟨"other/c.csv", some 0⟩, ⟨"exports/d.csv", none⟩].filter (fun o =>
          !(is_export_object o && is_expired (100 - 60) o)) ∧
    (cleanup_old_files
        [⟨"exports/a.csv", some 0⟩, ⟨"exports/b.csv", some 50⟩,
          ⟨"other/c.csv", some 0⟩, ⟨"exports/d.csv", none⟩] 100 60).2 =
      ([⟨"exports/a.csv", some 0⟩, ⟨"exports/b.csv", some 50⟩,
        ⟨"other/c.csv", some 0⟩, ⟨"exports/d.csv", none⟩].filter (fun o =>
          is_export_object o && is_expired (100 - 60) o)).length ∧
    (∀ o : StoreObject, ∀ tm : Int, o.last_modified = some tm →
      (is_expired (100 - 60) o = true ↔ tm < 100 - 60)) ∧
    (∀ o : StoreObject, o.last_modified = none →
      is_expired (100 - 60) o = false) :=
  C8_retention_sweep
    [⟨"exports/a.csv", some 0⟩, ⟨"exports/b.csv", some 50⟩,
      ⟨"other/c.csv", some 0⟩, ⟨"exports/d.csv", none⟩] 100 60 (by decide)

/-- C9 (counterexample): two expired export objects; removing the first
fails.  The sweep surfaces the error immediately: only the first object's
removal is ever attempted, the second enumerated candidate is not. -/
theorem C9_counterexample :
    cleanup_old_files_f
        [⟨"exports/a.csv", some 0⟩, ⟨"exports/b.csv", some 0⟩] 100 10
        (fun nm => nm == "exports/a.csv") =
      (["exports/a.csv"], .error ()) ∧
    "exports/b.csv" ∉
      (cleanup_old_files_f
          [⟨"exports/a.csv", some 0⟩, ⟨"exports/b.csv", some 0⟩] 100 10
          (fun nm => nm == "exports/a.csv")).1 := by
  constructor
  · decide
  · decide

theorem cleanup_loop_f_cons_fail {cutoff : Int} {fails : String → Bool}
    {o : StoreObject} {os : List StoreObject} {att : List String} {n : Nat}
    (hexp : is_expired cutoff o = true) (hf : fails o.object_name = true) :
    cleanup_loop_f cutoff fails (o :: os) att n =
      (att ++ [o.object_name], .error ()) := by
  unfold cleanup_loop_f
  rw [if_pos hexp, if_pos hf]

theorem cleanup_loop_f_cons_removed {cutoff : Int} {fails : String → Bool}
    {o : StoreObject} {os : List StoreObject} {att : List String} {n : Nat}
    (hexp : is_expired cutoff o = true) (hf : fails o.object_name = false) :
    cleanup_loop_f cutoff fails (o :: os) att n =
      cleanup_loop_f cutoff fails os (att ++ [o.object_name]) (n + 1) := by
  unfold cleanup_loop_f
  rw [if_pos hexp, if_neg (by simp [hf])]
  cases os with
  | nil => rfl
  | cons o2 os2 => rfl

theorem cleanup_loop_f_cons_skip {cutoff : Int} {fails : String → Bool}
    {o : StoreObject} {os : List StoreObject} {att : List String} {n : Nat}
    (hexp : is_expired cutoff o = false) :
    cleanup_loop_f cutoff fails (o :: os) att n =
      cleanup_loop_f cutoff fails os att n := by
  unfold cleanup_loop_f
  rw [if_neg (by simp [hexp])]
  cases os with
  | nil => rfl
  | cons o2 os2 => rfl

theorem cleanup_loop_f_fail (cutoff : Int) (fails : String → Bool) :
    ∀ (os : List StoreObject) (att : List String) (n : Nat),
      ((os.filter (is_expired cutoff)).map
        (fun o => o.object_name)).any fails = true →
      cleanup_loop_f cutoff fails os att n =
        (att ++
          ((os.filter (is_expired cutoff)).map
            (fun o => o.object_name)).takeWhile (fun nm => !(fails nm)) ++
          (((os.filter (is_expired cutoff)).map
            (fun o => o.object_name)).dropWhile (fun nm => !(fails nm))).take 1,
         .error ()) := by
  intro os
  induction os with
  | nil =>
    intro att n hany
    simp at hany
  | cons o os ih =>
    intro att n hany
    cases hexp : is_expired cutoff o with
    | true =>
      rw [List.filter_cons, if_pos hexp, List.map_cons] at hany ⊢
      cases hf : fails o.object_name with
      | true =>
        rw [cleanup_loop_f_cons_fail hexp hf,
          List.takeWhile_cons, List.dropWhile_cons]
        simp [hf]
      | false =>
        have hany' : ((os.filter (is_expired cutoff)).map
            (fun o => o.object_name)).any fails = true := by
          simpa [hf] using hany
        rw [cleanup_loop_f_cons_removed hexp hf, ih (att ++ [o.object_name]) (n + 1) hany',
          List.takeWhile_cons, List.dropWhile_cons]
        simp [hf]
    | false =>
      rw [List.filter_cons, if_neg (by simp [hexp])] at hany ⊢
      rw [cleanup_loop_f_cons_skip hexp]
      exact ih att n hany

/-- C9 (amended): a failure removing one enumerated deletion candidate
prevents removal attempts on the rest of the sweep: the error is logged and
re-raised at once, the attempted removals are exactly the successful
candidates before the first failing one plus that failing candidate, and no
candidate after it is attempted. -/
theorem C9_amended_abort (bucket : List StoreObject) (now retention : Int)
    (fails : String → Bool)
    (hany : (((bucket.filter is_export_object).filter
        (is_expired (now - retention))).map
        (fun o => o.object_name)).any fails = true) :
    cleanup_old_files_f bucket now retention fails =
      ((((bucket.filter is_export_object).filter
          (is_expired (now - retention))).map
          (fun o => o.object_name)).takeWhile (fun nm => !(fails nm)) ++
        ((((bucket.filter is_export_object).filter
          (is_expired (now - retention))).map
          (fun o => o.object_name)).dropWhile (fun nm => !(fails nm))).take 1,
       .error ()) ∧
    ∀ nm ∈ (cleanup_old_files_f bucket now retention fails).1,
      fails nm = true → nm ∈
        ((((bucket.filter is_export_object).filter
          (is_expired (now - retention))).map
          (fun o => o.object_name)).dropWhile (fun nm => !(fails nm))).take 1 := by
  have hmain := cleanup_loop_f_fail (now - retention) fails
    (bucket.filter is_export_object) [] 0 hany
  have hmain' : cleanup_old_files_f bucket now retention fails =
      ((((bucket.filter is_export_object).filter
          (is_expired (now - retention))).map
          (fun o => o.object_name)).takeWhile (fun nm => !(fails nm)) ++
        ((((bucket.filter is_export_object).filter
          (is_expired (now - retention))).map
          (fun o => o.object_name)).dropWhile (fun nm => !(fails nm))).take 1,
       .error ()) := by
    unfold cleanup_old_files_f
    rw [hmain]
    simp
  refine ⟨hmain', ?_⟩
  intro nm hnm hfnm
  rw [hmain'] at hnm
  simp only [List.mem_append] at hnm
  rcases hnm with hnm | hnm
  · have := List.mem_takeWhile_imp hnm
    rw [hfnm] at this
    simp at this
  · exact hnm

/-- Witness for the amended C9: two expired export objects, removal of the
first fails; the attempted list is exactly the failing candidate and the
error is surfaced. -/
theorem C9_amended_witness :
    cleanup_old_files_f
        [⟨"exports/a.csv", some 0⟩, ⟨"exports/b.csv", some 0⟩] 100 10
        (fun nm => nm == "exports/a.csv") =
      (((([⟨"exports/a.csv", some 0⟩,
            ⟨"exports/b.csv", some 0⟩].filter is_export_object).filter
          (is_expired (100 - 10))).map
          (fun o => o.object_name)).takeWhile
            (fun nm => !(nm == "exports/a.csv")) ++
        (((([⟨"exports/a.csv", some 0⟩,
            ⟨"exports/b.csv", some 0⟩].filter is_export_object).filter
          (is_expired (100 - 10))).map
          (fun o => o.object_name)).dropWhile
            (fun nm => !(nm == "exports/a.csv"))).take 1,
       .error ()) ∧
    ∀ nm ∈ (cleanup_old_files_f
        [⟨"exports/a.csv", some 0⟩, ⟨"exports/b.csv", some 0⟩] 100 10
        (fun nm => nm == "exports/a.csv")).1,
      (nm == "exports/a.csv") = true → nm ∈
        (((([⟨"exports/a.csv", some 0⟩,
            ⟨"exports/b.csv", some 0⟩].filter is_export_object).filter
          (is_expired (100 - 10))).map
          (fun o => o.object_name)).dropWhile
            (fun nm => !(nm == "exports/a.csv"))).take 1 :=
  C9_amended_abort
    [⟨"exports/a.csv", some 0⟩, ⟨"exports/b.csv", some 0⟩] 100 10
    (fun nm => nm == "exports/a.csv") (by decide)

/-- C10: on a freshly constructed manager the config dictionary is empty, so
`get_max_rows_per_file` returns the default 1,000,000 regardless of the
configured `max_rows_per_file` value — the configured value only becomes
visible after `_initialize_client` has run — and consequently
`stream_csv_to_minio` called with `max_rows_per_file = None` on a fresh
manager splits at 1,000,000 rows. -/
theorem C10_fresh_manager_default (app_config : MinioExportConfig)
    (store0 : Store) (chunks : List String) (f t : String)
    (mgr' : ManagerState)
    (hinit : initialize_client app_config manager_init = .ok mgr') :
    get_max_rows_per_file manager_init = 1000000 ∧
    stream_csv_to_minio_with_manager manager_init store0 chunks f none t =
      stream_csv_to_minio store0 chunks f 1000000 t ∧
    get_max_rows_per_file mgr' =
      app_config.max_rows_per_file.getD 1000000 := by
  refine ⟨rfl, rfl, ?_⟩
  unfold initialize_client at hinit
  simp only [manager_init, Bool.false_eq_true, if_false] at hinit
  split at hinit
  · cases hinit
  · split at hinit
    · cases hinit
    · rw [Except.ok.injEq] at hinit
      rw [← hinit]
      rfl

/-- Witness for C10: an app config with `max_rows_per_file = 500000` that
initializes successfully; the fresh manager still reports 1,000,000. -/
theorem C10_witness :
    get_max_rows_per_file manager_init = 1000000 ∧
    stream_csv_to_minio_with_manager manager_init [] ["h\na"] "report.csv"
        none "20260101_120000" =
      stream_csv_to_minio [] ["h\na"] "report.csv" 1000000 "20260101_120000" ∧
    get_max_rows_per_file ⟨true,
      ⟨some true, some "key", some "secret", some 500000⟩⟩ =
      (⟨some true, some "key", some "secret",
        some 500000⟩ : MinioExportConfig).max_rows_per_file.getD 1000000 :=
  C10_fresh_manager_default
    ⟨some true, some "key", some "secret", some 500000⟩ [] ["h\na"]
    "report.csv" "20260101_120000"
    ⟨true, ⟨some true, some "key", some "secret", some 500000⟩⟩ (by decide)
